import Mathlib

set_option maxHeartbeats 1000000

namespace Kwork

/- ====================================================================
   Record Store model (src/database_manager.py)

   The `projects` table of the SQLite store is modelled as a list of
   rows keyed by the integer primary key `id`; the `buyers` table and
   the `project_buyers` link table are carried along.  The store-managed
   timestamp columns (`created_at`, `updated_at`) are wall-clock values
   and are not modelled.
   ==================================================================== -/

/-- Column values of a `projects` row apart from the primary key `id`
(table `projects` in `database_manager.py`, `init_database`). -/
structure Payload where
  name : String
  url : String
  description : String
  price_limit : String
  possible_price_limit : String
  category_id : String
  status : String
  time_left : String
  offers_count : Int
  date_create : String
  date_active : String
  date_expire : String
  kwork_count : Int
  is_higher_price : Bool
deriving DecidableEq

/-- A buyer dictionary as stored in the `buyers` table
(`database_manager.py`, `insert_buyer`). -/
structure Buyer where
  user_id : String
  username : String
  profile_url : String
  avatar : String
  wants_count : String
  hired_percent : String
deriving DecidableEq

/-- A candidate project dictionary handed to the store.  `id` is
`Option Nat` because `project.get('id')` may be absent (`None`); `buyer`
is `Option Buyer` following `if 'buyer' in project and project['buyer']`. -/
structure Project where
  id : Option Nat
  payload : Payload
  buyer : Option Buyer
deriving DecidableEq

/-- A persisted row of the `projects` table. -/
structure Row where
  id : Nat
  payload : Payload
deriving DecidableEq

/-- The mutable SQLite state: the three tables touched by the pipeline. -/
structure Store where
  projects : List Row
  buyers : List Buyer
  links : List (Nat × String)
deriving DecidableEq

/-- Python truthiness of the project id value, used by
`if not project_id: continue` (`insert_projects`) and by the
comprehension filter in `parse_and_save`: absent (`None`) and `0` are
falsy. -/
def idTruthy : Option Nat → Bool
  | none => false
  | some n => n != 0

/-- The concrete id of a project whose id passed the truthiness guard. -/
def pidOf (p : Project) : Nat := p.id.getD 0

/-- `DatabaseManager.project_exists`: `SELECT id FROM projects WHERE id = ?`
followed by a fetchone non-null test. -/
def projectExists (t : List Row) (pid : Nat) : Bool :=
  t.any (fun r => r.id == pid)

/-- `DatabaseManager.get_existing_project_ids`: returns the empty set
without querying when the input list is empty, otherwise the set of
table ids contained in the given list
(`SELECT id FROM projects WHERE id IN (...)`). -/
def getExistingProjectIds (t : List Row) (ids : List Nat) : Finset Nat :=
  if ids.isEmpty then ∅
  else ((t.filter (fun r => ids.contains r.id)).map (fun r => r.id)).toFinset

/-- `DatabaseManager.insert_buyer`: `INSERT OR REPLACE INTO buyers` keyed
by `user_id` — the conflicting row is deleted and the new row inserted. -/
def insertBuyer (bs : List Buyer) (b : Buyer) : List Buyer :=
  (bs.filter (fun x => x.user_id != b.user_id)) ++ [b]

/-- `INSERT OR IGNORE INTO project_buyers`: a no-op when the pair is
already linked. -/
def linkInsert (ls : List (Nat × String)) (pid : Nat) (uid : String) :
    List (Nat × String) :=
  if ls.contains (pid, uid) then ls else ls ++ [(pid, uid)]

/-- `DatabaseManager.insert_project`: `INSERT OR REPLACE INTO projects`
on the primary key (delete the conflicting row, insert the new one),
then, if the project carries a truthy buyer, cascade to `insert_buyer`
and insert the link when the buyer's `user_id` is non-empty. -/
def insertProject (s : Store) (pid : Nat) (p : Project) : Store :=
  let projects' := (s.projects.filter (fun r => r.id != pid)) ++ [⟨pid, p.payload⟩]
  match p.buyer with
  | none => { s with projects := projects' }
  | some b =>
    let buyers' := insertBuyer s.buyers b
    if b.user_id != "" then
      { projects := projects', buyers := buyers',
        links := linkInsert s.links pid b.user_id }
    else
      { projects := projects', buyers := buyers', links := s.links }

/-- `DatabaseManager.insert_projects`: iterate the candidates in order,
skip falsy ids silently, check `project_exists` per item, insert only
when absent, and return the `(store, inserted, skipped)` outcome.  The
per-item existence check sees earlier inserts of the same call because
they go through the same uncommitted connection. -/
def insertProjects (s : Store) : List Project → Store × Nat × Nat
  | [] => (s, 0, 0)
  | p :: rest =>
    if idTruthy p.id then
      if projectExists s.projects (pidOf p) then
        let r := insertProjects s rest
        (r.1, r.2.1, r.2.2 + 1)
      else
        let r := insertProjects (insertProject s (pidOf p) p) rest
        (r.1, r.2.1 + 1, r.2.2)
    else insertProjects s rest

/-- Reference bulk insert, following the spec's words for §4.2
`bulk_insert`: "for each record, checks existence; persists and counts
as inserted only if absent; otherwise counts as skipped … calling
`exists` per item before `upsert_record`, in that order". -/
def refBulkInsert (s : Store) : List Project → Store × Nat × Nat
  | [] => (s, 0, 0)
  | p :: rest =>
    if projectExists s.projects (pidOf p) then
      let r := refBulkInsert s rest
      (r.1, r.2.1, r.2.2 + 1)
    else
      let r := refBulkInsert (insertProject s (pidOf p) p) rest
      (r.1, r.2.1 + 1, r.2.2)

/- ====================================================================
   Orchestrator page pass (src/kwork_parser.py, parse_and_save)
   ==================================================================== -/

/-- The comprehension `[p.get('id') for p in projects if p.get('id')]`
of `parse_and_save`. -/
def pageIds (ps : List Project) : List Nat :=
  ps.filterMap (fun p => if idTruthy p.id then some (pidOf p) else none)

/-- The filter loop of `parse_and_save`: falsy ids are skipped, ids in
the pre-fetched existing set are counted skipped, the rest are collected
(in order) as new and counted inserted. -/
def partitionLoop (existing : Finset Nat) :
    List Project → List Project × Nat × Nat
  | [] => ([], 0, 0)
  | p :: rest =>
    if idTruthy p.id then
      if pidOf p ∈ existing then
        let r := partitionLoop existing rest
        (r.1, r.2.1, r.2.2 + 1)
      else
        let r := partitionLoop existing rest
        (p :: r.1, r.2.1 + 1, r.2.2)
    else partitionLoop existing rest

/-- The persist loop `for proj in new_projects: self.db.insert_project(proj)`. -/
def insertAll (s : Store) (ps : List Project) : Store :=
  ps.foldl (fun st p => insertProject st (pidOf p) p) s

/-- One page of `parse_and_save`'s extract + dedup + persist pass:
collect truthy ids, fetch the existing subset in one query, partition,
then persist exactly the new projects. -/
def dedupPass (s : Store) (ps : List Project) : Store × Nat × Nat :=
  let ids := pageIds ps
  let existing := getExistingProjectIds s.projects ids
  let r := partitionLoop existing ps
  (insertAll s r.1, r.2.1, r.2.2)

/-- The set of primary keys present in the projects table. -/
def tableIds (t : List Row) : Finset Nat := (t.map (fun r => r.id)).toFinset

/-- The empty store, as created by `init_database` on a fresh file. -/
def emptyStore : Store := ⟨[], [], []⟩

/-- A payload with all defaulted column values. -/
def samplePayload : Payload :=
  ⟨"", "", "", "", "", "", "", "", 0, "", "", "", 0, false⟩

/-- A buyerless candidate with the given id. -/
def sampleProject (n : Nat) : Project := ⟨some n, samplePayload, none⟩

/- ====================================================================
   Store lemmas
   ==================================================================== -/

/-- The projects table after `insert_project` does not depend on the
buyer cascade: the conflicting row is removed and the new row appended. -/
theorem insertProject_projects (s : Store) (pid : Nat) (p : Project) :
    (insertProject s pid p).projects
      = s.projects.filter (fun r => r.id != pid) ++ [⟨pid, p.payload⟩] := by
  unfold insertProject
  cases p.buyer with
  | none => rfl
  | some b =>
    dsimp only
    split <;> rfl

theorem mem_tableIds (t : List Row) (x : Nat) :
    x ∈ tableIds t ↔ ∃ r ∈ t, r.id = x := by
  simp [tableIds]

theorem tableIds_insertProject (s : Store) (pid : Nat) (p : Project) :
    tableIds (insertProject s pid p).projects
      = insert pid (tableIds s.projects) := by
  ext x
  rw [mem_tableIds, Finset.mem_insert, mem_tableIds]
  constructor
  · rintro ⟨r, hr, he⟩
    rw [insertProject_projects] at hr
    rcases List.mem_append.mp hr with hr | hr
    · exact Or.inr ⟨r, (List.mem_filter.mp hr).1, he⟩
    · rcases List.mem_singleton.mp hr with rfl
      exact Or.inl he.symm
  · intro hx
    have hnew : (⟨pid, p.payload⟩ : Row) ∈ (insertProject s pid p).projects := by
      rw [insertProject_projects]
      exact List.mem_append_right _ (List.mem_singleton.mpr rfl)
    rcases hx with rfl | ⟨r, hr, he⟩
    · exact ⟨⟨x, p.payload⟩, hnew, rfl⟩
    · by_cases hrp : r.id = pid
      · refine ⟨⟨pid, p.payload⟩, hnew, ?_⟩
        rw [← he, hrp]
      · refine ⟨r, ?_, he⟩
        rw [insertProject_projects]
        exact List.mem_append_left _
          (List.mem_filter.mpr ⟨hr, by simp [bne_iff_ne, hrp]⟩)

theorem projectExists_iff (t : List Row) (pid : Nat) :
    projectExists t pid = true ↔ pid ∈ tableIds t := by
  rw [mem_tableIds]
  simp [projectExists, List.any_eq_true]

theorem mem_getExistingProjectIds (t : List Row) (ids : List Nat) (x : Nat) :
    x ∈ getExistingProjectIds t ids ↔ x ∈ ids ∧ x ∈ tableIds t := by
  unfold getExistingProjectIds
  split
  · next h =>
    simp [List.isEmpty_iff.mp h]
  · simp [tableIds, List.mem_filter]
    constructor
    · rintro ⟨r, ⟨hr, hin⟩, he⟩
      exact ⟨he ▸ hin, r, hr, he⟩
    · rintro ⟨hin, r, hr, he⟩
      exact ⟨r, ⟨hr, he ▸ hin⟩, he⟩

/- ====================================================================
   Claim C8
   ==================================================================== -/

/-- Claim C8: upsert correctness — inserting a record with identifier
`pid` and then inserting another payload under the same identifier
leaves exactly one stored row for `pid`, and that row carries the second
payload's field values (full overwrite, never a duplicate row). -/
theorem upsert_overwrite_single_row (s : Store) (pid : Nat) (p₁ p₂ : Project) :
    ((insertProject (insertProject s pid p₁) pid p₂).projects.filter
        (fun r => r.id == pid)) = [⟨pid, p₂.payload⟩]
    ∧ ((insertProject (insertProject s pid p₁) pid p₂).projects.filter
        (fun r => r.id == pid)).length = 1 := by
  have hmain :
      ((insertProject (insertProject s pid p₁) pid p₂).projects.filter
        (fun r => r.id == pid)) = [⟨pid, p₂.payload⟩] := by
    rw [insertProject_projects, List.filter_append, List.filter_filter]
    have h1 : ∀ r : Row, ((r.id == pid) && (r.id != pid)) = false := by
      intro r
      by_cases h : r.id = pid <;> simp [h]
    simp only [h1, List.filter_false, List.nil_append]
    simp
  exact ⟨hmain, by rw [hmain]; rfl⟩

/- ====================================================================
   Claim C7
   ==================================================================== -/

/-- Claim C7 counterexample: on a record whose identifier is falsy,
`insert_projects` (`if not project_id: continue`) silently skips the
record and leaves the store and both counts untouched, while the
reference exists-then-upsert program finds no existing row for the
missing key, performs the upsert, and counts one insert — so the
refinement fails for an arbitrary list of records. -/
theorem bulkInsert_reference_counterexample :
    insertProjects emptyStore [⟨none, samplePayload, none⟩]
        = (emptyStore, 0, 0)
    ∧ (refBulkInsert emptyStore [⟨none, samplePayload, none⟩]).2.1 = 1
    ∧ insertProjects emptyStore [⟨none, samplePayload, none⟩]
        ≠ refBulkInsert emptyStore [⟨none, samplePayload, none⟩] :=
  ⟨rfl, rfl, by decide⟩

/-- Claim C7 (amended): bulk-insert refinement — for every list of
records whose identifiers are all truthy and every initial store state,
`insert_projects` computes exactly the same final store and the same
inserted/skipped counts as the reference program that calls `exists`
per item and then, only if absent, performs the single-record upsert,
in order; a record with a falsy identifier is skipped by
`insert_projects` but would be inserted and counted by the reference. -/
theorem bulkInsert_refines_reference (s : Store) (ps : List Project)
    (h : ∀ p ∈ ps, idTruthy p.id) :
    insertProjects s ps = refBulkInsert s ps := by
  induction ps generalizing s with
  | nil => rfl
  | cons p rest ih =>
    have hp : idTruthy p.id := h p (List.mem_cons_self p rest)
    have hrest : ∀ q ∈ rest, idTruthy q.id :=
      fun q hq => h q (List.mem_cons_of_mem p hq)
    unfold insertProjects refBulkInsert
    rw [if_pos hp]
    by_cases he : projectExists s.projects (pidOf p)
    · rw [if_pos he, if_pos he, ih s hrest]
    · rw [if_neg he, if_neg he, ih (insertProject s (pidOf p) p) hrest]

/-- Witness for C7 at a concrete input. -/
theorem bulkInsert_refines_reference_witness :
    insertProjects emptyStore [sampleProject 1, sampleProject 2]
      = refBulkInsert emptyStore [sampleProject 1, sampleProject 2] :=
  bulkInsert_refines_reference emptyStore [sampleProject 1, sampleProject 2]
    (by decide)

/- ====================================================================
   Claim C2
   ==================================================================== -/

theorem card_insert_sdiff_step {R T : Finset Nat} {pid : Nat} (h : pid ∉ T) :
    ((insert pid R) \ T).card = (R \ insert pid T).card + 1 := by
  rw [Finset.insert_sdiff_of_not_mem _ h, Finset.sdiff_insert]
  by_cases hm : pid ∈ R \ T
  · rw [Finset.card_insert_of_mem hm, Finset.card_erase_of_mem hm]
    have hpos : 0 < (R \ T).card := Finset.card_pos.mpr ⟨pid, hm⟩
    omega
  · rw [Finset.card_insert_of_not_mem hm, Finset.erase_eq_of_not_mem hm]

theorem insertProjects_counts (s : Store) (ps : List Project) :
    (insertProjects s ps).2.1 + (insertProjects s ps).2.2
        = (ps.filter (fun p => idTruthy p.id)).length
    ∧ (insertProjects s ps).2.1
        = ((pageIds ps).toFinset \ tableIds s.projects).card := by
  induction ps generalizing s with
  | nil => simp [insertProjects, pageIds]
  | cons p rest ih =>
    by_cases hp : idTruthy p.id
    · have hped : pageIds (p :: rest) = pidOf p :: pageIds rest := by
        simp [pageIds, hp]
      by_cases he : projectExists s.projects (pidOf p)
      · have hmem : pidOf p ∈ tableIds s.projects := (projectExists_iff _ _).mp he
        unfold insertProjects
        rw [if_pos hp, if_pos he]
        dsimp only
        obtain ⟨ih1, ih2⟩ := ih s
        constructor
        · simp only [List.filter_cons, hp, if_true, List.length_cons]
          omega
        · rw [hped, List.toFinset_cons, Finset.insert_sdiff_of_mem _ hmem]
          exact ih2
      · have hnmem : pidOf p ∉ tableIds s.projects :=
          fun hm => he ((projectExists_iff _ _).mpr hm)
        unfold insertProjects
        rw [if_pos hp, if_neg he]
        dsimp only
        obtain ⟨ih1, ih2⟩ := ih (insertProject s (pidOf p) p)
        rw [tableIds_insertProject] at ih2
        constructor
        · simp only [List.filter_cons, hp, if_true, List.length_cons]
          omega
        · rw [hped, List.toFinset_cons, card_insert_sdiff_step hnmem]
          omega
    · have hped : pageIds (p :: rest) = pageIds rest := by
        simp [pageIds, hp]
      unfold insertProjects
      rw [if_neg (by simp [hp])]
      obtain ⟨ih1, ih2⟩ := ih s
      constructor
      · simpa [List.filter_cons, hp] using ih1
      · rw [hped]
        exact ih2

/-- Store state of the spec scenario: the store already holds id `2`. -/
def scenarioStore : Store := ⟨[⟨2, samplePayload⟩], [], []⟩

/-- Page content of the spec scenario: candidate ids `[1, 2, 3]`. -/
def scenarioProjects : List Project :=
  [sampleProject 1, sampleProject 2, sampleProject 3]

/-- Claim C2: partition completeness — `inserted + skipped` equals the
number of candidates whose identifier is truthy (absent or `0` ids,
falsy in Python, contribute to neither count); the inserted count is
exactly the number of distinct candidate ids absent from the store; and
in the spec scenario (page ids `[1,2,3]`, store holding `[2]`) the
existing-id query returns `{2}`, the bulk insert returns
`inserted = 2, skipped = 1`, and the store afterwards holds `{1,2,3}`. -/
theorem bulkInsert_partition_complete :
    (∀ (s : Store) (ps : List Project),
        (insertProjects s ps).2.1 + (insertProjects s ps).2.2
            = (ps.filter (fun p => idTruthy p.id)).length
        ∧ (insertProjects s ps).2.1
            = ((pageIds ps).toFinset \ tableIds s.projects).card)
    ∧ getExistingProjectIds scenarioStore.projects (pageIds scenarioProjects)
        = {2}
    ∧ (insertProjects scenarioStore scenarioProjects).2.1 = 2
    ∧ (insertProjects scenarioStore scenarioProjects).2.2 = 1
    ∧ tableIds (insertProjects scenarioStore scenarioProjects).1.projects
        = {1, 2, 3} :=
  ⟨insertProjects_counts, by decide, by decide, by decide, by decide⟩

/- ====================================================================
   Claim C1
   ==================================================================== -/

theorem insertAll_cons (s : Store) (q : Project) (rest : List Project) :
    insertAll s (q :: rest) = insertAll (insertProject s (pidOf q) q) rest := rfl

theorem tableIds_insertAll_mono (ps : List Project) (s : Store) :
    tableIds s.projects ⊆ tableIds (insertAll s ps).projects := by
  induction ps generalizing s with
  | nil => exact fun x hx => hx
  | cons q rest ih =>
    rw [insertAll_cons]
    intro x hx
    exact ih (insertProject s (pidOf q) q)
      (by rw [tableIds_insertProject]; exact Finset.mem_insert_of_mem hx)

theorem mem_tableIds_insertAll (ps : List Project) (s : Store) (p : Project)
    (hp : p ∈ ps) : pidOf p ∈ tableIds (insertAll s ps).projects := by
  induction ps generalizing s with
  | nil => cases hp
  | cons q rest ih =>
    rw [insertAll_cons]
    rcases List.mem_cons.mp hp with rfl | hp'
    · exact tableIds_insertAll_mono rest _
        (by rw [tableIds_insertProject]; exact Finset.mem_insert_self _ _)
    · exact ih _ hp'

theorem mem_partitionLoop_new (ex : Finset Nat) (ps : List Project)
    (p : Project) (hp : p ∈ ps) (ht : idTruthy p.id)
    (hnot : pidOf p ∉ ex) : p ∈ (partitionLoop ex ps).1 := by
  induction ps with
  | nil => cases hp
  | cons q rest ih =>
    rcases List.mem_cons.mp hp with rfl | hp'
    · unfold partitionLoop
      rw [if_pos ht, if_neg hnot]
      exact List.mem_cons_self _ _
    · unfold partitionLoop
      by_cases hq : idTruthy q.id
      · rw [if_pos hq]
        by_cases hqex : pidOf q ∈ ex
        · rw [if_pos hqex]; exact ih hp'
        · rw [if_neg hqex]; exact List.mem_cons_of_mem _ (ih hp')
      · rw [if_neg (by simp [hq])]; exact ih hp'

theorem mem_pageIds (ps : List Project) (p : Project) (hp : p ∈ ps)
    (ht : idTruthy p.id) : pidOf p ∈ pageIds ps := by
  simp only [pageIds, List.mem_filterMap]
  exact ⟨p, hp, by rw [if_pos ht]⟩

theorem dedupPass_covers (s : Store) (ps : List Project) (p : Project)
    (hp : p ∈ ps) (ht : idTruthy p.id) :
    pidOf p ∈ tableIds (dedupPass s ps).1.projects := by
  unfold dedupPass
  dsimp only
  by_cases hex :
      pidOf p ∈ getExistingProjectIds s.projects (pageIds ps)
  · have hmem : pidOf p ∈ tableIds s.projects :=
      ((mem_getExistingProjectIds _ _ _).mp hex).2
    exact tableIds_insertAll_mono _ _ hmem
  · exact mem_tableIds_insertAll _ _ p (mem_partitionLoop_new _ _ p hp ht hex)

theorem partitionLoop_all_skip (ex : Finset Nat) (ps : List Project)
    (h : ∀ p ∈ ps, idTruthy p.id ∧ pidOf p ∈ ex) :
    partitionLoop ex ps = ([], 0, ps.length) := by
  induction ps with
  | nil => rfl
  | cons q rest ih =>
    obtain ⟨hq, hqex⟩ := h q (List.mem_cons_self _ _)
    unfold partitionLoop
    rw [if_pos hq, if_pos hqex,
      ih (fun p hp => h p (List.mem_cons_of_mem _ hp))]
    rfl

/-- Claim C1: idempotent ingestion — running the extract + dedup +
persist pass of `parse_and_save` a second time over the store produced
by the first pass yields zero inserts, counts every record as skipped,
and leaves the store (in particular its record count) unchanged. -/
theorem ingest_idempotent (s : Store) (ps : List Project)
    (hids : ∀ p ∈ ps, idTruthy p.id) :
    (dedupPass (dedupPass s ps).1 ps).2.1 = 0
    ∧ (dedupPass (dedupPass s ps).1 ps).2.2 = ps.length
    ∧ (dedupPass (dedupPass s ps).1 ps).1 = (dedupPass s ps).1
    ∧ (dedupPass (dedupPass s ps).1 ps).1.projects.length
        = (dedupPass s ps).1.projects.length := by
  have hcov : ∀ p ∈ ps, idTruthy p.id
      ∧ pidOf p ∈ getExistingProjectIds (dedupPass s ps).1.projects
          (pageIds ps) := by
    intro p hp
    refine ⟨hids p hp, ?_⟩
    rw [mem_getExistingProjectIds]
    exact ⟨mem_pageIds ps p hp (hids p hp),
      dedupPass_covers s ps p hp (hids p hp)⟩
  have hpart := partitionLoop_all_skip _ ps hcov
  set S1 := (dedupPass s ps).1 with hS1
  have hsecond : dedupPass S1 ps = (S1, 0, ps.length) := by
    unfold dedupPass
    dsimp only
    rw [hpart]
    rfl
  rw [hsecond]
  exact ⟨rfl, rfl, rfl, rfl⟩

/-- Witness for C1 at a concrete input. -/
theorem ingest_idempotent_witness :
    (dedupPass (dedupPass emptyStore [sampleProject 1]).1
        [sampleProject 1]).2.1 = 0
    ∧ (dedupPass (dedupPass emptyStore [sampleProject 1]).1
        [sampleProject 1]).2.2 = [sampleProject 1].length
    ∧ (dedupPass (dedupPass emptyStore [sampleProject 1]).1
        [sampleProject 1]).1 = (dedupPass emptyStore [sampleProject 1]).1
    ∧ (dedupPass (dedupPass emptyStore [sampleProject 1]).1
          [sampleProject 1]).1.projects.length
        = (dedupPass emptyStore [sampleProject 1]).1.projects.length :=
  ingest_idempotent emptyStore [sampleProject 1] (by decide)

/- ====================================================================
   Notifier: long-message splitting
   (src/telegram_bot.py, TelegramBot._send_long_message)

   Text is modelled as `List Char`.
   ==================================================================== -/

/-- The soft ceiling `max_length = 4000` of `_send_long_message`. -/
def softCeiling : Nat := 4000

/-- The hard Telegram ceiling checked by `send_message`. -/
def hardCeiling : Nat := 4096

/-- ASCII whitespace stripped by Python's `str.lstrip()` (the further
Unicode space characters are not modelled). -/
def pyIsSpace (c : Char) : Bool :=
  c == ' ' || c == '\t' || c == '\n' || c == '\r'
    || c == Char.ofNat 11 || c == Char.ofNat 12

/-- `text.lstrip()` on the modelled character set. -/
def pyLstrip (l : List Char) : List Char := l.dropWhile pyIsSpace

/-- Index of the last newline of a character list, `none` when there is
no newline; `lastNL (text.take 4000)` is `text.rfind('\n', 0, 4000)`
with `-1` rendered as `none`. -/
def lastNL : List Char → Option Nat
  | [] => none
  | c :: rest =>
    match lastNL rest with
    | some i => some (i + 1)
    | none => if c == '\n' then some 0 else none

/-- The cut position chosen by `_send_long_message`: the last newline at
or before the soft ceiling, or exactly the soft ceiling when no newline
exists in range (`split_pos == -1`). -/
def splitPos (text : List Char) : Nat :=
  match lastNL (text.take softCeiling) with
  | none => softCeiling
  | some i => i

/-- The remaining text after one loop iteration:
`text = text[split_pos:].lstrip()`. -/
def splitRemainder (text : List Char) : List Char :=
  pyLstrip (text.drop (splitPos text))

theorem length_dropWhile_le (p : Char → Bool) (l : List Char) :
    (l.dropWhile p).length ≤ l.length := by
  induction l with
  | nil => simp
  | cons a l ih =>
    rw [List.dropWhile_cons]
    split
    · exact Nat.le_succ_of_le ih
    · exact le_refl _

theorem lastNL_lt_length (l : List Char) (i : Nat) (h : lastNL l = some i) :
    i < l.length := by
  induction l generalizing i with
  | nil => cases h
  | cons c rest ih =>
    unfold lastNL at h
    cases hr : lastNL rest with
    | some j =>
      rw [hr] at h
      injection h with h'
      have := ih j hr
      simp only [List.length_cons]
      omega
    | none =>
      rw [hr] at h
      by_cases hc : c == '\n'
      · rw [if_pos hc] at h
        injection h with h'
        simp only [List.length_cons]
        omega
      · rw [if_neg hc] at h
        cases h

theorem lastNL_zero_head (l : List Char) (h : lastNL l = some 0) :
    l.head? = some '\n' := by
  cases l with
  | nil => cases h
  | cons c rest =>
    unfold lastNL at h
    cases hr : lastNL rest with
    | some j =>
      rw [hr] at h
      injection h with h'
      exact absurd h' (Nat.succ_ne_zero j)
    | none =>
      rw [hr] at h
      by_cases hc : c == '\n'
      · have : c = '\n' := eq_of_beq hc
        simp [this]
      · rw [if_neg hc] at h
        cases h

theorem head?_take (l : List Char) (n : Nat) (hn : 0 < n) :
    (l.take n).head? = l.head? := by
  cases l with
  | nil => simp
  | cons c rest =>
    cases n with
    | zero => exact absurd hn (lt_irrefl 0)
    | succ m => simp [List.take_succ_cons]

theorem splitPos_le (text : List Char) : splitPos text ≤ softCeiling := by
  unfold splitPos
  cases h : lastNL (text.take softCeiling) with
  | none => exact le_refl _
  | some i =>
    dsimp only
    have hi := lastNL_lt_length _ _ h
    have hlen : (text.take softCeiling).length ≤ softCeiling := by
      simp [List.length_take]
    omega

/-- One iteration of the splitting loop strictly shrinks the text: the
cut position is positive unless the text begins with a newline, and in
that case the `lstrip` of the remainder removes at least that newline. -/
theorem splitRemainder_lt (text : List Char) (h : softCeiling < text.length) :
    (splitRemainder text).length < text.length := by
  have hsc : softCeiling = 4000 := rfl
  unfold splitRemainder splitPos
  cases hnl : lastNL (text.take softCeiling) with
  | none =>
    dsimp only
    have h1 : (text.drop softCeiling).length = text.length - softCeiling := by
      simp
    have h2 := length_dropWhile_le pyIsSpace (text.drop softCeiling)
    unfold pyLstrip
    omega
  | some i =>
    dsimp only
    cases i with
    | zero =>
      have hh := lastNL_zero_head _ hnl
      rw [head?_take text softCeiling (by omega)] at hh
      cases text with
      | nil => simp at h
      | cons c rest =>
        have hc : c = '\n' := by
          simpa using hh
        rw [List.drop_zero]
        unfold pyLstrip
        rw [List.dropWhile_cons_of_pos (by rw [hc]; rfl)]
        have := length_dropWhile_le pyIsSpace rest
        simp only [List.length_cons]
        omega
    | succ j =>
      have h1 : (text.drop (j + 1)).length = text.length - (j + 1) := by
        simp
      have h2 := length_dropWhile_le pyIsSpace (text.drop (j + 1))
      unfold pyLstrip
      omega

/-- The splitting loop of `_send_long_message`: while text remains, a
text within the soft ceiling becomes the final part; otherwise the text
is cut at `splitPos` and the remainder is left-stripped and processed
next. -/
def splitLong (text : List Char) : List (List Char) :=
  if h1 : text.isEmpty then []
  else if h2 : text.length ≤ softCeiling then [text]
  else text.take (splitPos text) :: splitLong (splitRemainder text)
termination_by text.length
decreasing_by
  exact splitRemainder_lt text (Nat.lt_of_not_le h2)

theorem splitLong_parts_le :
    ∀ (text : List Char), ∀ part ∈ splitLong text,
      part.length ≤ softCeiling := by
  intro text
  induction text using splitLong.induct with
  | case1 text h1 =>
    intro part hpart
    rw [splitLong] at hpart
    rw [dif_pos h1] at hpart
    cases hpart
  | case2 text h1 h2 =>
    intro part hpart
    rw [splitLong] at hpart
    rw [dif_neg h1, dif_pos h2] at hpart
    rcases List.mem_singleton.mp hpart with rfl
    exact h2
  | case3 text h1 h2 ih =>
    intro part hpart
    rw [splitLong] at hpart
    rw [dif_neg h1, dif_neg h2] at hpart
    rcases List.mem_cons.mp hpart with rfl | hpart'
    · have h1 : (text.take (splitPos text)).length ≤ splitPos text := by
        simp [List.length_take]
      exact le_trans h1 (splitPos_le text)
    · exact ih part hpart'

/-- Claim C3: size bound of splitting — every segment produced by the
long-message split routine has length at most the soft ceiling 4000,
hence at most the hard ceiling 4096. -/
theorem split_segments_size_bound (text part : List Char)
    (hmem : part ∈ splitLong text) :
    part.length ≤ 4000 ∧ part.length ≤ 4096 := by
  have h := splitLong_parts_le text part hmem
  have hsc : softCeiling = 4000 := rfl
  omega

/-- Witness for C3 at a concrete input. -/
theorem split_segments_size_bound_witness :
    (['a'] : List Char).length ≤ 4000 ∧ (['a'] : List Char).length ≤ 4096 :=
  split_segments_size_bound ['a'] ['a'] (by rw [splitLong]; simp [softCeiling])

/-- Claim C10: split termination — whenever the splitting loop recurses
(text longer than the soft ceiling), the remaining text strictly
shrinks, because the chosen cut position is positive unless the text
begins with a newline, in which case the post-cut `lstrip` removes at
least that character; `splitLong` is therefore a total function
producing a finite list of segments. -/
theorem split_loop_decreases (text : List Char)
    (h : softCeiling < text.length) :
    (splitRemainder text).length < text.length
    ∧ (splitPos text = 0 → text.head? = some '\n') := by
  refine ⟨splitRemainder_lt text h, ?_⟩
  intro h0
  unfold splitPos at h0
  cases hnl : lastNL (text.take softCeiling) with
  | none =>
    rw [hnl] at h0
    exact absurd h0 (by decide)
  | some i =>
    rw [hnl] at h0
    subst h0
    have hh := lastNL_zero_head _ hnl
    rwa [head?_take text softCeiling (by decide)] at hh

/-- Witness for C10 at a concrete input. -/
theorem split_loop_decreases_witness :
    (splitRemainder (List.replicate 4001 'a')).length
        < (List.replicate 4001 'a').length
    ∧ (splitPos (List.replicate 4001 'a') = 0 →
        (List.replicate 4001 'a').head? = some '\n') :=
  split_loop_decreases (List.replicate 4001 'a')
    (by rw [List.length_replicate]; decide)

/- ====================================================================
   Notifier: HTML escaping and the send operation
   (src/telegram_bot.py, TelegramBot.send_message / _escape_html)
   ==================================================================== -/

/-- The entity `&amp;`. -/
def ampEnt : List Char := ['&', 'a', 'm', 'p', ';']

/-- The entity `&lt;`. -/
def ltEnt : List Char := ['&', 'l', 't', ';']

/-- The entity `&gt;`. -/
def gtEnt : List Char := ['&', 'g', 't', ';']

/-- Python `str.replace` for a single-character pattern: every
occurrence of `c` becomes `r`. -/
def replaceChar (c : Char) (r : List Char) : List Char → List Char
  | [] => []
  | x :: xs => (if x = c then r else [x]) ++ replaceChar c r xs

/-- `TelegramBot._escape_html`: falsy text becomes the empty string;
otherwise `&` is replaced first, then `<`, then `>`. -/
def escapeHtml (text : List Char) : List Char :=
  if text.isEmpty then []
  else
    replaceChar '>' gtEnt (replaceChar '<' ltEnt (replaceChar '&' ampEnt text))

/-- The message texts transmitted by `TelegramBot.send_message` for a
given text: a text over the hard 4096 ceiling goes through
`_send_long_message`'s splitting, any other text is transmitted as the
single payload `text` — unchanged in both cases. -/
def sentTexts (text : List Char) : List (List Char) :=
  if hardCeiling < text.length then splitLong text else [text]

/-- The intended per-character escape of one character. -/
def escChar (x : Char) : List Char :=
  if x = '&' then ampEnt
  else if x = '<' then ltEnt
  else if x = '>' then gtEnt
  else [x]

theorem replaceChar_append (c : Char) (r u v : List Char) :
    replaceChar c r (u ++ v) = replaceChar c r u ++ replaceChar c r v := by
  induction u with
  | nil => rfl
  | cons x xs ih =>
    simp only [List.cons_append, replaceChar, List.append_eq, ih,
      List.append_assoc]

theorem escapeHtml_core (l : List Char) :
    replaceChar '>' gtEnt (replaceChar '<' ltEnt (replaceChar '&' ampEnt l))
      = (l.map escChar).flatten := by
  induction l with
  | nil => rfl
  | cons x xs ih =>
    have h1 : replaceChar '&' ampEnt (x :: xs)
        = (if x = '&' then ampEnt else [x]) ++ replaceChar '&' ampEnt xs := rfl
    rw [h1, replaceChar_append, replaceChar_append, ih, List.map_cons,
      List.flatten_cons]
    congr 1
    by_cases hamp : x = '&'
    · subst hamp; decide
    · by_cases hlt : x = '<'
      · subst hlt; decide
      · by_cases hgt : x = '>'
        · subst hgt; decide
        · simp [replaceChar, escChar, hamp, hlt, hgt]

theorem escChar_no_raw (x : Char) : '<' ∉ escChar x ∧ '>' ∉ escChar x := by
  by_cases hamp : x = '&'
  · subst hamp; decide
  · by_cases hlt : x = '<'
    · subst hlt; decide
    · by_cases hgt : x = '>'
      · subst hgt; decide
      · constructor
        · simp [escChar, hamp, hlt, hgt]
          exact fun he => hlt he.symm
        · simp [escChar, hamp, hlt, hgt]
          exact fun he => hgt he.symm

/-- Claim C4 (amended): the send operation transmits its argument
verbatim; escaping is performed by the `_escape_html` helper — which
the message formatters apply to selected fields before sending — and
for every text that helper rewrites each `&`, `<`, `>` to `&amp;`,
`&lt;`, `&gt;` in a single left-to-right pass (the `&` of an introduced
entity is never re-escaped), so its output contains no raw `<` or `>`. -/
theorem escape_singlePass_no_raw_markup (text : List Char) :
    escapeHtml text = (text.map escChar).flatten
    ∧ '<' ∉ escapeHtml text
    ∧ '>' ∉ escapeHtml text := by
  have heq : escapeHtml text = (text.map escChar).flatten := by
    unfold escapeHtml
    cases text with
    | nil => rfl
    | cons x xs => exact escapeHtml_core (x :: xs)
  refine ⟨heq, ?_, ?_⟩ <;> rw [heq] <;> intro hmem <;>
    rcases List.mem_flatten.mp hmem with ⟨l, hl, hx⟩ <;>
    rcases List.mem_map.mp hl with ⟨y, _, rfl⟩
  · exact (escChar_no_raw y).1 hx
  · exact (escChar_no_raw y).2 hx

/-- Claim C4 counterexample: the text `"<"` passed to the send
operation is transmitted as `"<"` itself — the markup-significant
character is not escaped before transmission (escaping would have
produced `"&lt;"`). -/
theorem sendEscape_counterexample :
    sentTexts ['<'] = [['<']]
    ∧ escapeHtml ['<'] = ['&', 'l', 't', ';']
    ∧ ['<'] ≠ escapeHtml ['<'] :=
  ⟨rfl, rfl, by decide⟩

/- ====================================================================
   Extractor (src/kwork_parser.py)

   Python values are embedded as `PyVal`; dictionaries are association
   lists.  Operations that would raise in Python return `none`, because
   every raising path of the Extractor is caught by its generic handler
   and turned into an empty result.
   ==================================================================== -/

/-- A JSON-decoded Python value. -/
inductive PyVal where
  | vNone : PyVal
  | vBool (b : Bool) : PyVal
  | vInt (n : Int) : PyVal
  | vStr (s : String) : PyVal
  | vList (xs : List PyVal) : PyVal
  | vDict (kvs : List (String × PyVal)) : PyVal

/-- `dict.get(k, dflt)`: the stored value when the key is present (even
when that value is `None`), the default otherwise. -/
def dictGet (d : List (String × PyVal)) (k : String) (dflt : PyVal) : PyVal :=
  match List.lookup k d with
  | some v => v
  | none => dflt

mutual

/-- Python `repr` of a value, as interpolated for containers (string
escaping inside `repr` of exotic strings is not modelled). -/
def pyRepr : PyVal → String
  | .vNone => "None"
  | .vBool true => "True"
  | .vBool false => "False"
  | .vInt n => toString n
  | .vStr s => "'" ++ s ++ "'"
  | .vList xs => "[" ++ String.intercalate ", " (pyReprList xs) ++ "]"
  | .vDict kvs => "\x7b" ++ String.intercalate ", " (pyReprPairs kvs) ++ "\x7d"

/-- `repr` of the elements of a list value. -/
def pyReprList : List PyVal → List String
  | [] => []
  | v :: vs => pyRepr v :: pyReprList vs

/-- `repr` of the key/value pairs of a dict value. -/
def pyReprPairs : List (String × PyVal) → List String
  | [] => []
  | (k, v) :: kvs => ("'" ++ k ++ "': " ++ pyRepr v) :: pyReprPairs kvs

end

/-- `str(v)`, as used by f-string interpolation. -/
def pyStr : PyVal → String
  | .vNone => "None"
  | .vBool true => "True"
  | .vBool false => "False"
  | .vInt n => toString n
  | .vStr s => s
  | v => pyRepr v

/-- The site base URL of `KworkParser`. -/
def kworkBaseUrl : String := "https://kwork.ru"

/-- The 15 always-present fields built by `_parse_project_data`: every
field except `id` falls back to a concrete default of its type; `id` is
`data.get('id')` with no default, and `url` is an f-string around
`data.get('id', '')`. -/
def projCore (d : List (String × PyVal)) : List (String × PyVal) :=
  [ ("id", dictGet d "id" .vNone),
    ("name", dictGet d "name" (.vStr "")),
    ("url", .vStr (kworkBaseUrl ++ "/projects/"
        ++ pyStr (dictGet d "id" (.vStr "")))),
    ("description", dictGet d "description" (.vStr "")),
    ("price_limit", dictGet d "priceLimit" (.vStr "")),
    ("possible_price_limit", dictGet d "possiblePriceLimit" (.vStr "")),
    ("category_id", dictGet d "category_id" (.vStr "")),
    ("status", dictGet d "status" (.vStr "")),
    ("time_left", dictGet d "timeLeft" (.vStr "")),
    ("offers_count", dictGet d "views_dirty" (.vInt 0)),
    ("date_create", dictGet d "date_create" (.vStr "")),
    ("date_active", dictGet d "date_active" (.vStr "")),
    ("date_expire", dictGet d "date_expire" (.vStr "")),
    ("kwork_count", dictGet d "kwork_count" (.vInt 0)),
    ("is_higher_price", dictGet d "isHigherPrice" (.vBool false)) ]

/-- The buyer fragment built from `data['user']`. -/
def buyerCore (ud : List (String × PyVal)) : List (String × PyVal) :=
  [ ("username", dictGet ud "username" (.vStr "")),
    ("user_id", dictGet ud "USERID" (.vStr "")),
    ("profile_url", .vStr (kworkBaseUrl ++ "/user/"
        ++ pyStr (dictGet ud "username" (.vStr "")))),
    ("avatar", dictGet ud "profilepicture" (.vStr "")) ]

/-- The reputation fields added from `user['data']`. -/
def buyerStats (ud2 : List (String × PyVal)) : List (String × PyVal) :=
  [ ("wants_count", dictGet ud2 "wants_count" (.vStr "0")),
    ("hired_percent", dictGet ud2 "wants_hired_percent" (.vStr "0")) ]

/-- `KworkParser._parse_project_data`: builds the record dictionary from
a raw entry; any raising path (non-dict entry, non-dict `user`, present
but non-dict `user['data']`) is caught by the function's own handler,
which returns `None`. -/
def parseProjectData : PyVal → Option (List (String × PyVal))
  | .vDict d =>
    match List.lookup "user" d with
    | none => some (projCore d)
    | some u =>
      match u with
      | .vDict ud =>
        match List.lookup "data" ud with
        | none => some (projCore d ++ [("buyer", .vDict (buyerCore ud))])
        | some udata =>
          match udata with
          | .vDict ud2 =>
            some (projCore d
              ++ [("buyer", .vDict (buyerCore ud ++ buyerStats ud2))])
          | _ => none
      | _ => none
  | _ => none

/-- True when `a` occurs at the head of `b`. -/
def startsWithChars : List Char → List Char → Bool
  | [], _ => true
  | _ :: _, [] => false
  | a :: as, b :: bs => a == b && startsWithChars as bs

/-- True when `needle` occurs as a contiguous run inside `hay`. -/
def hasSubChars (needle : List Char) : List Char → Bool
  | [] => needle.isEmpty
  | b :: bs => startsWithChars needle (b :: bs) || hasSubChars needle bs

/-- Python `==` between a string literal and an arbitrary value. -/
def pyEqStr (k : String) : PyVal → Bool
  | .vStr t => k == t
  | _ => false

/-- Python `k in v`: key test for dicts, element test for lists,
substring test for strings; `none` models the `TypeError` raised on the
remaining types. -/
def pyContains (k : String) : PyVal → Option Bool
  | .vDict kvs => some (List.lookup k kvs).isSome
  | .vList xs => some (xs.any (pyEqStr k))
  | .vStr s => some (hasSubChars k.data s.data)
  | _ => none

/-- Python `v[k]` with a string key: defined only on dicts holding the
key; `none` models `TypeError` / `KeyError`. -/
def pySubscript (v : PyVal) (k : String) : Option PyVal :=
  match v with
  | .vDict kvs => List.lookup k kvs
  | _ => none

/-- Python iteration `for x in v`: lists yield elements, strings yield
one-character strings, dicts yield keys; `none` models `TypeError`. -/
def pyIterate : PyVal → Option (List PyVal)
  | .vList xs => some xs
  | .vStr s => some (s.data.map (fun c => .vStr (String.mk [c])))
  | .vDict kvs => some (kvs.map (fun kv => .vStr kv.1))
  | _ => none

/-- The `elif 'wants' in wants_list:` arm of `_extract_projects_from_js`;
`none` covers both a raised-and-caught error and the not-found
diagnostic (both produce the empty result). -/
def wantsFallback (wl : PyVal) : Option PyVal :=
  match pyContains "wants" wl with
  | none => none
  | some true => pySubscript wl "wants"
  | some false => none

/-- Selection of the listing array by
`if 'pagination' in wants_list and 'data' in wants_list['pagination']`,
falling back to the `wants` shape. -/
def wantsArray (wl : PyVal) : Option PyVal :=
  match pyContains "pagination" wl with
  | none => none
  | some true =>
    match pySubscript wl "pagination" with
    | none => none
    | some pag =>
      match pyContains "data" pag with
      | none => none
      | some true => pySubscript pag "data"
      | some false => wantsFallback wl
  | some false => wantsFallback wl

/-- Input of `_extract_projects_from_js`, keyed by the outcome of the
two library stages that precede the structured traversal: the
`window.stateData` anchor search (`re.search`) and the JSON decode
(`json.loads`, whose successful top value for the captured `{...}`
group is an object). -/
inductive ExtractInput where
  | noAnchor : ExtractInput
  | decodeFailure : ExtractInput
  | decoded (stateData : List (String × PyVal)) : ExtractInput

/-- `KworkParser._extract_projects_from_js`: missing anchor, decode
failure, missing `wantsListData`, a listing array found under neither
shape, and every raising path all yield the empty list; otherwise raw
entries are mapped through `_parse_project_data` and truthy results are
kept (`if project:`). -/
def extractProjectsFromJs : ExtractInput → List (List (String × PyVal))
  | .noAnchor => []
  | .decodeFailure => []
  | .decoded stateData =>
    match List.lookup "wantsListData" stateData with
    | none => []
    | some wl =>
      match wantsArray wl with
      | none => []
      | some raw =>
        match pyIterate raw with
        | none => []
        | some items =>
          items.filterMap (fun proj =>
            match parseProjectData proj with
            | none => none
            | some rec => if rec.isEmpty then none else some rec)

/- ====================================================================
   Claim C5
   ==================================================================== -/

theorem lookup_append_some {α β : Type} [BEq α] (k : α) (l1 l2 : List (α × β))
    (v : β) (h : List.lookup k l1 = some v) :
    List.lookup k (l1 ++ l2) = some v := by
  induction l1 with
  | nil => cases h
  | cons p rest ih =>
    rw [List.cons_append]
    rw [List.lookup] at h ⊢
    cases hk : k == p.1 with
    | true => rwa [hk] at h
    | false =>
      rw [hk] at h
      exact ih h

theorem parseProjectData_shape (d : List (String × PyVal))
    (rec : List (String × PyVal))
    (h : parseProjectData (.vDict d) = some rec) :
    ∃ tail, rec = projCore d ++ tail := by
  unfold parseProjectData at h
  dsimp only at h
  cases hu : List.lookup "user" d with
  | none =>
    rw [hu] at h
    dsimp only at h
    injection h with h'
    exact ⟨[], by rw [← h', List.append_nil]⟩
  | some u =>
    rw [hu] at h
    cases u with
    | vDict ud =>
      dsimp only at h
      cases hd2 : List.lookup "data" ud with
      | none =>
        rw [hd2] at h
        dsimp only at h
        injection h with h'
        exact ⟨_, h'.symm⟩
      | some udata =>
        rw [hd2] at h
        cases udata with
        | vDict ud2 =>
          dsimp only at h
          injection h with h'
          exact ⟨_, h'.symm⟩
        | vNone => exact Option.noConfusion h
        | vBool b => exact Option.noConfusion h
        | vInt n => exact Option.noConfusion h
        | vStr s => exact Option.noConfusion h
        | vList xs => exact Option.noConfusion h
    | vNone => exact Option.noConfusion h
    | vBool b => exact Option.noConfusion h
    | vInt n => exact Option.noConfusion h
    | vStr s => exact Option.noConfusion h
    | vList xs => exact Option.noConfusion h

theorem projCore_id (d : List (String × PyVal)) :
    List.lookup "id" (projCore d) = some (dictGet d "id" .vNone) := rfl

theorem projCore_name (d : List (String × PyVal)) :
    List.lookup "name" (projCore d) = some (dictGet d "name" (.vStr "")) := rfl

theorem projCore_url (d : List (String × PyVal)) :
    List.lookup "url" (projCore d)
      = some (.vStr (kworkBaseUrl ++ "/projects/"
          ++ pyStr (dictGet d "id" (.vStr "")))) := rfl

theorem projCore_description (d : List (String × PyVal)) :
    List.lookup "description" (projCore d)
      = some (dictGet d "description" (.vStr "")) := rfl

theorem projCore_price_limit (d : List (String × PyVal)) :
    List.lookup "price_limit" (projCore d)
      = some (dictGet d "priceLimit" (.vStr "")) := rfl

theorem projCore_possible_price_limit (d : List (String × PyVal)) :
    List.lookup "possible_price_limit" (projCore d)
      = some (dictGet d "possiblePriceLimit" (.vStr "")) := rfl

theorem projCore_category_id (d : List (String × PyVal)) :
    List.lookup "category_id" (projCore d)
      = some (dictGet d "category_id" (.vStr "")) := rfl

theorem projCore_status (d : List (String × PyVal)) :
    List.lookup "status" (projCore d)
      = some (dictGet d "status" (.vStr "")) := rfl

theorem projCore_time_left (d : List (String × PyVal)) :
    List.lookup "time_left" (projCore d)
      = some (dictGet d "timeLeft" (.vStr "")) := rfl

theorem projCore_offers_count (d : List (String × PyVal)) :
    List.lookup "offers_count" (projCore d)
      = some (dictGet d "views_dirty" (.vInt 0)) := rfl

theorem projCore_date_create (d : List (String × PyVal)) :
    List.lookup "date_create" (projCore d)
      = some (dictGet d "date_create" (.vStr "")) := rfl

theorem projCore_date_active (d : List (String × PyVal)) :
    List.lookup "date_active" (projCore d)
      = some (dictGet d "date_active" (.vStr "")) := rfl

theorem projCore_date_expire (d : List (String × PyVal)) :
    List.lookup "date_expire" (projCore d)
      = some (dictGet d "date_expire" (.vStr "")) := rfl

theorem projCore_kwork_count (d : List (String × PyVal)) :
    List.lookup "kwork_count" (projCore d)
      = some (dictGet d "kwork_count" (.vInt 0)) := rfl

theorem projCore_is_higher_price (d : List (String × PyVal)) :
    List.lookup "is_higher_price" (projCore d)
      = some (dictGet d "isHigherPrice" (.vBool false)) := rfl

/-- Claim C5 (amended): every field of the produced record other than
the identifier that is absent in the raw entry receives a concrete
default of the appropriate type (empty string, zero, or false), and the
derived `url` field is always a concrete string; the identifier,
however, is passed through `data.get('id')` with no default and is
null (`None`) when absent in the raw entry. -/
theorem extractorDefaults_amended (d : List (String × PyVal))
    (rec : List (String × PyVal))
    (h : parseProjectData (.vDict d) = some rec) :
    (List.lookup "id" d = none → List.lookup "id" rec = some .vNone)
    ∧ (List.lookup "name" d = none →
        List.lookup "name" rec = some (.vStr ""))
    ∧ (List.lookup "description" d = none →
        List.lookup "description" rec = some (.vStr ""))
    ∧ (List.lookup "priceLimit" d = none →
        List.lookup "price_limit" rec = some (.vStr ""))
    ∧ (List.lookup "possiblePriceLimit" d = none →
        List.lookup "possible_price_limit" rec = some (.vStr ""))
    ∧ (List.lookup "category_id" d = none →
        List.lookup "category_id" rec = some (.vStr ""))
    ∧ (List.lookup "status" d = none →
        List.lookup "status" rec = some (.vStr ""))
    ∧ (List.lookup "timeLeft" d = none →
        List.lookup "time_left" rec = some (.vStr ""))
    ∧ (List.lookup "views_dirty" d = none →
        List.lookup "offers_count" rec = some (.vInt 0))
    ∧ (List.lookup "date_create" d = none →
        List.lookup "date_create" rec = some (.vStr ""))
    ∧ (List.lookup "date_active" d = none →
        List.lookup "date_active" rec = some (.vStr ""))
    ∧ (List.lookup "date_expire" d = none →
        List.lookup "date_expire" rec = some (.vStr ""))
    ∧ (List.lookup "kwork_count" d = none →
        List.lookup "kwork_count" rec = some (.vInt 0))
    ∧ (List.lookup "isHigherPrice" d = none →
        List.lookup "is_higher_price" rec = some (.vBool false))
    ∧ List.lookup "url" rec
        = some (.vStr (kworkBaseUrl ++ "/projects/"
            ++ pyStr (dictGet d "id" (.vStr "")))) := by
  obtain ⟨tail, rfl⟩ := parseProjectData_shape d rec h
  refine ⟨?_, ?_, ?_, ?_, ?_, ?_, ?_, ?_, ?_, ?_, ?_, ?_, ?_, ?_, ?_⟩
  · intro habs
    refine lookup_append_some _ _ _ _ ?_
    rw [projCore_id]
    unfold dictGet
    rw [habs]
  · intro habs
    refine lookup_append_some _ _ _ _ ?_
    rw [projCore_name]
    unfold dictGet
    rw [habs]
  · intro habs
    refine lookup_append_some _ _ _ _ ?_
    rw [projCore_description]
    unfold dictGet
    rw [habs]
  · intro habs
    refine lookup_append_some _ _ _ _ ?_
    rw [projCore_price_limit]
    unfold dictGet
    rw [habs]
  · intro habs
    refine lookup_append_some _ _ _ _ ?_
    rw [projCore_possible_price_limit]
    unfold dictGet
    rw [habs]
  · intro habs
    refine lookup_append_some _ _ _ _ ?_
    rw [projCore_category_id]
    unfold dictGet
    rw [habs]
  · intro habs
    refine lookup_append_some _ _ _ _ ?_
    rw [projCore_status]
    unfold dictGet
    rw [habs]
  · intro habs
    refine lookup_append_some _ _ _ _ ?_
    rw [projCore_time_left]
    unfold dictGet
    rw [habs]
  · intro habs
    refine lookup_append_some _ _ _ _ ?_
    rw [projCore_offers_count]
    unfold dictGet
    rw [habs]
  · intro habs
    refine lookup_append_some _ _ _ _ ?_
    rw [projCore_date_create]
    unfold dictGet
    rw [habs]
  · intro habs
    refine lookup_append_some _ _ _ _ ?_
    rw [projCore_date_active]
    unfold dictGet
    rw [habs]
  · intro habs
    refine lookup_append_some _ _ _ _ ?_
    rw [projCore_date_expire]
    unfold dictGet
    rw [habs]
  · intro habs
    refine lookup_append_some _ _ _ _ ?_
    rw [projCore_kwork_count]
    unfold dictGet
    rw [habs]
  · intro habs
    refine lookup_append_some _ _ _ _ ?_
    rw [projCore_is_higher_price]
    unfold dictGet
    rw [habs]
  · exact lookup_append_some _ _ _ _ (projCore_url d)

/-- Claim C5 counterexample: mapping a raw entry with no `id` key
produces a record whose `id` field is null (`None`), contradicting the
claim that no field of the produced record — including the identifier —
is ever null/absent. -/
theorem extractorDefaults_counterexample :
    parseProjectData (.vDict []) = some (projCore [])
    ∧ List.lookup "id" (projCore []) = some .vNone :=
  ⟨rfl, rfl⟩

/-- Witness for the amended C5 at a concrete input. -/
theorem extractorDefaults_amended_witness :
    List.lookup "name" (projCore []) = some (PyVal.vStr "")
    ∧ List.lookup "offers_count" (projCore []) = some (PyVal.vInt 0) :=
  ⟨(extractorDefaults_amended [] (projCore []) rfl).2.1 rfl,
   (extractorDefaults_amended [] (projCore []) rfl).2.2.2.2.2.2.2.2.1 rfl⟩

/- ====================================================================
   Claim C6
   ==================================================================== -/

/-- Claim C6: extractor error totality — the extraction operation is a
total function into lists of records (it never raises to its caller;
every raising path inside it is modelled by its caught-and-empty
result), and it returns the empty sequence when the embedded-data
anchor is missing, when the structured block fails to decode, when
`wantsListData` is absent, and when the listing array is absent under
both supported nesting shapes. -/
theorem extract_error_totality :
    extractProjectsFromJs .noAnchor = []
    ∧ extractProjectsFromJs .decodeFailure = []
    ∧ (∀ d, List.lookup "wantsListData" d = none →
        extractProjectsFromJs (.decoded d) = [])
    ∧ (∀ d wld, List.lookup "wantsListData" d = some (.vDict wld) →
        List.lookup "pagination" wld = none →
        List.lookup "wants" wld = none →
        extractProjectsFromJs (.decoded d) = [])
    ∧ (∀ d wld pd, List.lookup "wantsListData" d = some (.vDict wld) →
        List.lookup "pagination" wld = some (.vDict pd) →
        List.lookup "data" pd = none →
        List.lookup "wants" wld = none →
        extractProjectsFromJs (.decoded d) = []) := by
  refine ⟨rfl, rfl, ?_, ?_, ?_⟩
  · intro d hd
    unfold extractProjectsFromJs
    dsimp only
    rw [hd]
  · intro d wld h1 h2 h3
    have hpc : pyContains "pagination" (.vDict wld) = some false := by
      simp [pyContains, h2]
    have hw : pyContains "wants" (.vDict wld) = some false := by
      simp [pyContains, h3]
    have harr : wantsArray (.vDict wld) = none := by
      unfold wantsArray
      rw [hpc]
      dsimp only
      unfold wantsFallback
      rw [hw]
    unfold extractProjectsFromJs
    dsimp only
    rw [h1]
    dsimp only
    rw [harr]
  · intro d wld pd h1 h2 h3 h4
    have hpc : pyContains "pagination" (.vDict wld) = some true := by
      simp [pyContains, h2]
    have hsub : pySubscript (.vDict wld) "pagination" = some (.vDict pd) := by
      simp [pySubscript, h2]
    have hdc : pyContains "data" (.vDict pd) = some false := by
      simp [pyContains, h3]
    have hw : pyContains "wants" (.vDict wld) = some false := by
      simp [pyContains, h4]
    have harr : wantsArray (.vDict wld) = none := by
      unfold wantsArray
      rw [hpc]
      dsimp only
      rw [hsub]
      dsimp only
      rw [hdc]
      dsimp only
      unfold wantsFallback
      rw [hw]
    unfold extractProjectsFromJs
    dsimp only
    rw [h1]
    dsimp only
    rw [harr]

/-- Witness for C6 at concrete inputs. -/
theorem extract_error_totality_witness :
    extractProjectsFromJs (.decoded []) = []
    ∧ extractProjectsFromJs (.decoded [("wantsListData", .vDict [])]) = [] :=
  ⟨extract_error_totality.2.2.1 [] rfl,
   extract_error_totality.2.2.2.1 [("wantsListData", .vDict [])] [] rfl rfl
     rfl⟩

/- ====================================================================
   Notifier: batched delivery
   (src/telegram_bot.py, TelegramBot.send_projects_batch)

   The loop `for i in range(0, len(projects), batch_size)` slices
   consecutive chunks `projects[i:i+batch_size]`; it is modelled by
   recursion on the remaining list.  The Boolean outcome of the external
   delivery call for the j-th chunk is the oracle `sendOk j`.  A zero
   batch size would make Python's `range` raise `ValueError`; that
   unreachable-for-positive-sizes case is cut off by a guard.
   ==================================================================== -/

/-- The consecutive chunks `projects[i:i+batch_size]` visited by the
loop. -/
def chunksOf (bs : Nat) (l : List Project) : List (List Project) :=
  if l.isEmpty then []
  else if bs = 0 then []
  else l.take bs :: chunksOf bs (l.drop bs)
termination_by l.length
decreasing_by
  rename_i hne hbs
  have h0 : l.length ≠ 0 := fun hz => hne (List.isEmpty_iff_length_eq_zero.mpr hz)
  have : (l.drop bs).length = l.length - bs := by simp
  omega

/-- The counting loop of `send_projects_batch`: each chunk whose send
succeeded contributes its size to `sent_count`; a failed chunk
contributes zero and the loop continues. -/
def sendBatchLoop (sendOk : Nat → Bool) (bs : Nat) (l : List Project)
    (j : Nat) : Nat :=
  if l.isEmpty then 0
  else if bs = 0 then 0
  else (if sendOk j then (l.take bs).length else 0)
    + sendBatchLoop sendOk bs (l.drop bs) (j + 1)
termination_by l.length
decreasing_by
  rename_i hne hbs
  have h0 : l.length ≠ 0 := fun hz => hne (List.isEmpty_iff_length_eq_zero.mpr hz)
  have : (l.drop bs).length = l.length - bs := by simp
  omega

/-- `TelegramBot.send_projects_batch` starting at chunk 0. -/
def sendProjectsBatch (sendOk : Nat → Bool) (ps : List Project)
    (bs : Nat) : Nat :=
  sendBatchLoop sendOk bs ps 0

theorem chunksOf_length_le (bs : Nat) :
    ∀ (l : List Project), ∀ c ∈ chunksOf bs l, c.length ≤ bs := by
  intro l
  induction l using chunksOf.induct bs with
  | case1 l hl =>
    intro c hc
    rw [chunksOf, if_pos hl] at hc
    cases hc
  | case2 l hl hbs =>
    intro c hc
    rw [chunksOf, if_neg hl, if_pos hbs] at hc
    cases hc
  | case3 l hl hbs ih =>
    intro c hc
    rw [chunksOf, if_neg hl, if_neg hbs] at hc
    rcases List.mem_cons.mp hc with rfl | hc'
    · simp [List.length_take]
    · exact ih c hc'

theorem chunksOf_flatten (bs : Nat) (hbs : 0 < bs) :
    ∀ (l : List Project), (chunksOf bs l).flatten = l := by
  intro l
  induction l using chunksOf.induct bs with
  | case1 l hl =>
    rw [chunksOf, if_pos hl]
    exact (List.isEmpty_iff.mp hl).symm
  | case2 l hl h0 => exact absurd h0 (Nat.pos_iff_ne_zero.mp hbs)
  | case3 l hl h0 ih =>
    rw [chunksOf, if_neg hl, if_neg h0, List.flatten_cons, ih]
    exact List.take_append_drop bs l

theorem sendBatchLoop_eq_sum (sendOk : Nat → Bool) (bs : Nat)
    (hbs : 0 < bs) :
    ∀ (l : List Project) (j : Nat),
      sendBatchLoop sendOk bs l j
        = (((chunksOf bs l).enumFrom j).map
            (fun x => if sendOk x.1 then x.2.length else 0)).sum := by
  intro l
  induction l using chunksOf.induct bs with
  | case1 l hl =>
    intro j
    rw [sendBatchLoop, if_pos hl, chunksOf, if_pos hl]
    rfl
  | case2 l hl h0 => exact absurd h0 (Nat.pos_iff_ne_zero.mp hbs)
  | case3 l hl h0 ih =>
    intro j
    rw [sendBatchLoop, if_neg hl, if_neg h0, chunksOf, if_neg hl, if_neg h0]
    rw [List.enumFrom_cons, List.map_cons, List.sum_cons, ih (j + 1)]

theorem sendBatchLoop_le (sendOk : Nat → Bool) (bs : Nat) :
    ∀ (l : List Project) (j : Nat),
      sendBatchLoop sendOk bs l j ≤ l.length := by
  intro l
  induction l using chunksOf.induct bs with
  | case1 l hl =>
    intro j
    rw [sendBatchLoop, if_pos hl]
    exact Nat.zero_le _
  | case2 l hl h0 =>
    intro j
    rw [sendBatchLoop, if_neg hl, if_pos h0]
    exact Nat.zero_le _
  | case3 l hl h0 ih =>
    intro j
    rw [sendBatchLoop, if_neg hl, if_neg h0]
    have h1 : (if sendOk j then (l.take bs).length else 0)
        ≤ (l.take bs).length := by
      split
      · exact le_refl _
      · exact Nat.zero_le _
    have h2 := ih (j + 1)
    have h3 : (l.take bs).length + (l.drop bs).length = l.length := by
      simp [List.length_take, List.length_drop]
      omega
    omega

/-- Claim C9: batch delivery count — for every record list, every
positive batch size, and every per-chunk delivery outcome, the batch
send partitions the input into consecutive chunks of at most
`batch_size` records, and returns exactly the sum of the sizes of the
chunks whose send succeeded (a failed chunk contributes zero even when
earlier chunks succeeded), a count that is therefore between 0 and the
number of input records. -/
theorem sendBatch_count (sendOk : Nat → Bool) (ps : List Project)
    (bs : Nat) (hbs : 0 < bs) :
    (∀ c ∈ chunksOf bs ps, c.length ≤ bs)
    ∧ (chunksOf bs ps).flatten = ps
    ∧ sendProjectsBatch sendOk ps bs
        = (((chunksOf bs ps).enumFrom 0).map
            (fun x => if sendOk x.1 then x.2.length else 0)).sum
    ∧ sendProjectsBatch sendOk ps bs ≤ ps.length :=
  ⟨chunksOf_length_le bs ps, chunksOf_flatten bs hbs ps,
   sendBatchLoop_eq_sum sendOk bs hbs ps 0, sendBatchLoop_le sendOk bs ps 0⟩

/-- Witness for C9 at a concrete input. -/
theorem sendBatch_count_witness :
    (∀ c ∈ chunksOf 5 [sampleProject 1], c.length ≤ 5)
    ∧ (chunksOf 5 [sampleProject 1]).flatten = [sampleProject 1]
    ∧ sendProjectsBatch (fun _ => true) [sampleProject 1] 5
        = (((chunksOf 5 [sampleProject 1]).enumFrom 0).map
            (fun x => if (fun _ => true) x.1 then x.2.length else 0)).sum
    ∧ sendProjectsBatch (fun _ => true) [sampleProject 1] 5
        ≤ [sampleProject 1].length :=
  sendBatch_count (fun _ => true) [sampleProject 1] 5 (by decide)

end Kwork
